import Mathlib

set_option maxRecDepth 40000

/-!
Shallow embedding of `complete-annotations.py`, a one-shot patcher that splices
fixed annotation blocks into tool declarations of a text buffer.

Buffers are `List Char`.  The script's three regular expressions
(`name:\s*"<tool>"`, `required:\s*\[[^\]]*\]`, `,\s*\}`) contain only literals
and the star-closures `\s*` and `[^\]]*`, each followed by a character outside
the starred class, so Python's leftmost greedy search coincides with the
deterministic maximal-munch matchers defined here.  `re.search` is embedded as
`searchFrom`, which returns the leftmost match position together with the match
length.  File-system and console effects of `main` are embedded as an explicit
event trace (`Ev`), and Python's `-1` sentinel of the brace-counting helper is
embedded as `none`.
-/

/-- Python's `\s` class restricted to the ASCII whitespace characters. -/
def pySpace (c : Char) : Bool :=
  c == ' ' || c == '\t' || c == '\n' || c == '\r' || c == '\x0b' || c == '\x0c'

/-- Characters of a string literal. -/
def strL (s : String) : List Char := s.data

/-- Strip a literal from the front of a buffer; `none` on mismatch or exhaustion. -/
def stripLit : List Char → List Char → Option (List Char)
  | [], s => some s
  | _ :: _, [] => none
  | a :: p, b :: s => if a = b then stripLit p s else none

/-- Greedily consume `\s*`: number of characters consumed and the remainder. -/
def dropSpacesCount : List Char → Nat × List Char
  | [] => (0, [])
  | c :: t =>
    if pySpace c then ((dropSpacesCount t).1 + 1, (dropSpacesCount t).2)
    else (0, c :: t)

/-- Greedily consume `[^\]]*`: number of characters consumed and the remainder. -/
def dropNonBracketCount : List Char → Nat × List Char
  | [] => (0, [])
  | c :: t =>
    if c = ']' then (0, c :: t)
    else ((dropNonBracketCount t).1 + 1, (dropNonBracketCount t).2)

/-- Match `name:\s*"<toolName>"` at the head of `s`; returns the match length. -/
def matchAtName (toolName s : List Char) : Option Nat :=
  match stripLit (strL "name:") s with
  | none => none
  | some s1 =>
    match stripLit ('"' :: (toolName ++ ['"'])) (dropSpacesCount s1).2 with
    | none => none
    | some _ => some (5 + (dropSpacesCount s1).1 + (toolName.length + 2))

/-- Match `required:\s*\[[^\]]*\]` at the head of `s`; returns the match length. -/
def matchAtRequired (s : List Char) : Option Nat :=
  match stripLit (strL "required:") s with
  | none => none
  | some s1 =>
    match (dropSpacesCount s1).2 with
    | [] => none
    | c :: s2 =>
      if c = '[' then
        match (dropNonBracketCount s2).2 with
        | [] => none
        | d :: _ =>
          if d = ']' then
            some (9 + (dropSpacesCount s1).1 + 1 + (dropNonBracketCount s2).1 + 1)
          else none
      else none

/-- Match `,\s*\}` at the head of `s`; returns the match length. -/
def matchAtCommaBrace (s : List Char) : Option Nat :=
  match s with
  | [] => none
  | c :: s1 =>
    if c = ',' then
      match (dropSpacesCount s1).2 with
      | [] => none
      | d :: _ => if d = '\x7d' then some ((dropSpacesCount s1).1 + 2) else none
    else none

/-- Tail-recursive scan for `re.search`: try to match at each position,
carrying the current absolute position `i`. -/
def searchFromAux (p : List Char → Option Nat) (i : Nat) : List Char → Option (Nat × Nat)
  | [] =>
    match p [] with
    | some len => some (i, len)
    | none => none
  | c :: t =>
    match p (c :: t) with
    | some len => some (i, len)
    | none => searchFromAux p (i + 1) t

/-- `re.search`: leftmost position at which `p` matches, with the match length. -/
def searchFrom (p : List Char → Option Nat) (s : List Char) : Option (Nat × Nat) :=
  searchFromAux p 0 s

/-- Boolean prefix test on buffers. -/
def isPrefixB : List Char → List Char → Bool
  | [], _ => true
  | _ :: _, [] => false
  | a :: p, b :: s => a == b && isPrefixB p s

/-- Python's substring operator `pat in s`. -/
def containsSub (pat : List Char) : List Char → Bool
  | [] => isPrefixB pat []
  | c :: t => isPrefixB pat (c :: t) || containsSub pat t

/-- The marker token whose presence means a tool is already annotated. -/
def marker : List Char := strL "annotations:"

/-- The fixed annotation template spliced into a declaration (the f-string
`annotation_block` of the script, braces written as `\x7b`/`\x7d`). -/
def annotation_block (annotationType title : List Char) : List Char :=
  strL ",\n        annotations: \x7b\n          title: \"" ++ title ++
    strL "\",\n          ..." ++ annotationType ++ strL ",\n        \x7d"

/-- `add_annotation_to_tool(content, tool_name, annotation_type, title)`:
locate the declaration by name, skip if the marker occurs in the next 1000
characters, find the first `required:[...]` in the next 2000 characters, find
the first `,\s*}` in the 50 characters after it, and splice the block in right
after that comma.  Returns the (possibly new) buffer and the modified flag. -/
def add_annotation_to_tool (content toolName annotationType title : List Char) :
    List Char × Bool :=
  match searchFrom (matchAtName toolName) content with
  | none => (content, false)
  | some m =>
    if containsSub marker ((content.drop m.1).take 1000) then (content, false)
    else
      match searchFrom matchAtRequired ((content.drop m.1).take 2000) with
      | none => (content, false)
      | some r =>
        match searchFrom matchAtCommaBrace
            ((content.drop (m.1 + r.1 + r.2)).take 50) with
        | none => (content, false)
        | some cm =>
          (content.take (m.1 + r.1 + r.2 + cm.1 + 1) ++
            annotation_block annotationType title ++
            content.drop (m.1 + r.1 + r.2 + cm.1 + 1), true)

/-- Scan from `start` counting braces; returns the index of the `}` that brings
the count back to zero after at least one `{` was seen (`find_tool_definition_end`;
Python's `-1` is embedded as `none`). -/
def ftdeGo : List Char → Int → Bool → Nat → Option Nat
  | [], _, _, _ => none
  | c :: t, braceCount, inTool, i =>
    if c = '\x7b' then ftdeGo t (braceCount + 1) true (i + 1)
    else if c = '\x7d' then
      if inTool = true ∧ braceCount - 1 = 0 then some i
      else ftdeGo t (braceCount - 1) inTool (i + 1)
    else ftdeGo t braceCount inTool (i + 1)

/-- `find_tool_definition_end(content, start_pos)`. -/
def find_tool_definition_end (content : List Char) (startPos : Nat) : Option Nat :=
  ftdeGo (content.drop startPos) 0 false startPos

/-- One entry of the `TOOL_ANNOTATIONS` table. -/
structure ToolEntry where
  name : List Char
  atype : List Char
  title : List Char
deriving DecidableEq

/-- Helper to build a table entry from string literals. -/
def TE (n a t : String) : ToolEntry := ⟨strL n, strL a, strL t⟩

/-- The `TOOL_ANNOTATIONS` table, in Python dict insertion order. -/
def TOOL_ANNOTATIONS : List ToolEntry := [
  TE "autotask_test_connection" "TEST_ANNOTATIONS" "Test Connection",
  TE "autotask_search_companies" "READ_ONLY_ANNOTATIONS" "Search Companies",
  TE "autotask_create_company" "CREATE_ANNOTATIONS" "Create Company",
  TE "autotask_update_company" "UPDATE_ANNOTATIONS" "Update Company",
  TE "autotask_search_contacts" "READ_ONLY_ANNOTATIONS" "Search Contacts",
  TE "autotask_create_contact" "CREATE_ANNOTATIONS" "Create Contact",
  TE "autotask_search_tickets" "READ_ONLY_ANNOTATIONS" "Search Tickets",
  TE "autotask_get_ticket_details" "READ_ONLY_ANNOTATIONS" "Get Ticket Details",
  TE "autotask_create_ticket" "CREATE_ANNOTATIONS" "Create Ticket",
  TE "autotask_update_ticket" "UPDATE_ANNOTATIONS" "Update Ticket",
  TE "autotask_create_time_entry" "CREATE_ANNOTATIONS" "Create Time Entry",
  TE "autotask_search_projects" "READ_ONLY_ANNOTATIONS" "Search Projects",
  TE "autotask_create_project" "CREATE_ANNOTATIONS" "Create Project",
  TE "autotask_search_resources" "READ_ONLY_ANNOTATIONS" "Search Resources",
  TE "autotask_get_ticket_note" "READ_ONLY_ANNOTATIONS" "Get Ticket Note",
  TE "autotask_search_ticket_notes" "READ_ONLY_ANNOTATIONS" "Search Ticket Notes",
  TE "autotask_create_ticket_note" "CREATE_ANNOTATIONS" "Create Ticket Note",
  TE "autotask_get_project_note" "READ_ONLY_ANNOTATIONS" "Get Project Note",
  TE "autotask_search_project_notes" "READ_ONLY_ANNOTATIONS" "Search Project Notes",
  TE "autotask_create_project_note" "CREATE_ANNOTATIONS" "Create Project Note",
  TE "autotask_get_company_note" "READ_ONLY_ANNOTATIONS" "Get Company Note",
  TE "autotask_search_company_notes" "READ_ONLY_ANNOTATIONS" "Search Company Notes",
  TE "autotask_create_company_note" "CREATE_ANNOTATIONS" "Create Company Note",
  TE "autotask_search_ticket_attachments" "READ_ONLY_ANNOTATIONS" "Search Ticket Attachments",
  TE "autotask_get_ticket_attachment" "READ_ONLY_ANNOTATIONS" "Get Ticket Attachment",
  TE "autotask_get_expense_report" "READ_ONLY_ANNOTATIONS" "Get Expense Report",
  TE "autotask_search_expense_reports" "READ_ONLY_ANNOTATIONS" "Search Expense Reports",
  TE "autotask_create_expense_report" "CREATE_ANNOTATIONS" "Create Expense Report",
  TE "autotask_get_quote" "READ_ONLY_ANNOTATIONS" "Get Quote",
  TE "autotask_search_quotes" "READ_ONLY_ANNOTATIONS" "Search Quotes",
  TE "autotask_create_quote" "CREATE_ANNOTATIONS" "Create Quote",
  TE "autotask_search_configuration_items" "READ_ONLY_ANNOTATIONS" "Search Configuration Items",
  TE "autotask_search_contracts" "READ_ONLY_ANNOTATIONS" "Search Contracts",
  TE "autotask_search_invoices" "READ_ONLY_ANNOTATIONS" "Search Invoices",
  TE "autotask_search_tasks" "READ_ONLY_ANNOTATIONS" "Search Tasks",
  TE "autotask_create_task" "CREATE_ANNOTATIONS" "Create Task"]

/-- Observable effects of a run: console lines, file reads and file writes. -/
inductive Ev where
  | print : List Char → Ev
  | fsRead : List Char → Ev
  | fsWrite : List Char → List Char → Ev
deriving DecidableEq

/-- The per-entry success line printed by the loop. -/
def addedLine (n : List Char) : List Char :=
  strL "  ✓ Added annotations to " ++ n

/-- The per-entry skip line printed by the loop. -/
def skippedLine (n : List Char) : List Char :=
  strL "  - Skipped " ++ n ++ strL " (already has annotations or not found)"

/-- State of `main`'s loop: working buffer, the two counters, console log. -/
structure RunState where
  content : List Char
  modified_count : Nat
  skipped_count : Nat
  log : List Ev
deriving DecidableEq

/-- One iteration of the loop body of `main`. -/
def processEntry (st : RunState) (e : ToolEntry) : RunState :=
  if (add_annotation_to_tool st.content e.name e.atype e.title).2 then
    ⟨(add_annotation_to_tool st.content e.name e.atype e.title).1,
      st.modified_count + 1, st.skipped_count,
      st.log ++ [Ev.print (addedLine e.name)]⟩
  else
    ⟨st.content, st.modified_count, st.skipped_count + 1,
      st.log ++ [Ev.print (skippedLine e.name)]⟩

/-- The whole pass of `main` over the table. -/
def runPass (content : List Char) : RunState :=
  TOOL_ANNOTATIONS.foldl processEntry ⟨content, 0, 0, []⟩

/-- The target path `Path(__file__).parent / "src" / "handlers" / "tool.handler.ts"`,
with `sd` the directory of the script. -/
def handlerPath (sd : List Char) : List Char :=
  sd ++ strL "/src/handlers/tool.handler.ts"

/-- The backup path `handler_path.with_suffix('.ts.backup-annotations')`. -/
def backupPath (sd : List Char) : List Char :=
  sd ++ strL "/src/handlers/tool.handler.ts.backup-annotations"

/-- Result of a run of `main`: exit code, effect trace, final target content
(`none` when the target file does not exist). -/
structure MainResult where
  exitCode : Nat
  trace : List Ev
  fileAfter : Option (List Char)
deriving DecidableEq

/-- `main()`, over an abstract file system: `target` is the content of the
target file (or `none` when missing), `sd` the script directory. -/
def main_model (sd : List Char) (target : Option (List Char)) : MainResult :=
  match target with
  | none =>
    ⟨1, [Ev.print (strL "Error: Could not find " ++ handlerPath sd)], none⟩
  | some content =>
    if (runPass content).modified_count > 0 then
      ⟨0,
        [Ev.print (strL "Reading " ++ handlerPath sd ++ strL "..."),
         Ev.fsRead (handlerPath sd),
         Ev.fsWrite (backupPath sd) content,
         Ev.print (strL "Created backup at " ++ backupPath sd)] ++
        (runPass content).log ++
        [Ev.fsWrite (handlerPath sd) (runPass content).content,
         Ev.print (strL "\n✓ Successfully added annotations to " ++
           strL (Nat.repr (runPass content).modified_count) ++ strL " tools"),
         Ev.print (strL "  (" ++ strL (Nat.repr (runPass content).skipped_count) ++
           strL " tools skipped)")],
        some (runPass content).content⟩
    else
      ⟨0,
        [Ev.print (strL "Reading " ++ handlerPath sd ++ strL "..."),
         Ev.fsRead (handlerPath sd),
         Ev.fsWrite (backupPath sd) content,
         Ev.print (strL "Created backup at " ++ backupPath sd)] ++
        (runPass content).log ++
        [Ev.print (strL "\nNo changes needed - all tools already have annotations")],
        some content⟩

/-- The already-annotated test of one entry against a buffer: its declaration
is found and the marker occurs in the 1000-character window after it. -/
def entryAnnotated (content : List Char) (e : ToolEntry) : Bool :=
  match searchFrom (matchAtName e.name) content with
  | some m => containsSub marker ((content.drop m.1).take 1000)
  | none => false

/-- Does this event write to path `p`? -/
def evWritesTo (p : List Char) (ev : Ev) : Bool :=
  match ev with
  | Ev.fsWrite q _ => if q = p then true else false
  | _ => false

/-- Does this event read from path `p`? -/
def evReadsFrom (p : List Char) (ev : Ev) : Bool :=
  match ev with
  | Ev.fsRead q => if q = p then true else false
  | _ => false

/-- Is this event a file write at all? -/
def evIsWrite (ev : Ev) : Bool :=
  match ev with
  | Ev.fsWrite _ _ => true
  | _ => false

/-! ### Basic lemmas about the matcher building blocks -/

theorem stripLit_append {lit : List Char} : ∀ {Q R : List Char},
    stripLit lit Q = some R → ∀ r, stripLit lit (Q ++ r) = some (R ++ r) := by
  induction lit with
  | nil =>
    intro Q R h r
    simp only [stripLit, Option.some.injEq] at h
    subst h
    rfl
  | cons a p ih =>
    intro Q R h r
    cases Q with
    | nil => simp [stripLit] at h
    | cons b s =>
      by_cases hab : a = b
      · simp only [stripLit, if_pos hab] at h
        simpa [stripLit, hab] using ih h r
      · simp [stripLit, hab] at h

theorem stripLit_decomp {lit : List Char} : ∀ {Q R : List Char},
    stripLit lit Q = some R → Q = lit ++ R := by
  induction lit with
  | nil =>
    intro Q R h
    simp only [stripLit, Option.some.injEq] at h
    simp [h]
  | cons a p ih =>
    intro Q R h
    cases Q with
    | nil => simp [stripLit] at h
    | cons b s =>
      by_cases hab : a = b
      · simp only [stripLit, if_pos hab] at h
        simp [← hab, ih h]
      · simp [stripLit, hab] at h

/-- Definitive mismatch of a literal within `Q` alone: the strip fails for
every extension of `Q`. -/
def litRefutes : List Char → List Char → Bool
  | [], _ => false
  | _ :: _, [] => false
  | a :: p, b :: s => if a = b then litRefutes p s else true

theorem litRefutes_sound {lit : List Char} : ∀ {Q : List Char},
    litRefutes lit Q = true → ∀ r, stripLit lit (Q ++ r) = none := by
  induction lit with
  | nil => intro Q h r; simp [litRefutes] at h
  | cons a p ih =>
    intro Q h r
    cases Q with
    | nil => simp [litRefutes] at h
    | cons b s =>
      by_cases hab : a = b
      · simp only [litRefutes, if_pos hab] at h
        simpa [stripLit, hab] using ih h r
      · simp [stripLit, hab]

theorem dropSpacesCount_head : ∀ {Q : List Char} {c : Char} {t : List Char},
    (dropSpacesCount Q).2 = c :: t → pySpace c = false := by
  intro Q
  induction Q with
  | nil => intro c t h; simp [dropSpacesCount] at h
  | cons b s ih =>
    intro c t h
    cases hb : pySpace b with
    | true =>
      simp only [dropSpacesCount, hb, if_true] at h
      exact ih h
    | false =>
      simp [dropSpacesCount, hb] at h
      obtain ⟨rfl, rfl⟩ := h
      exact hb

theorem dropSpacesCount_append : ∀ {Q : List Char} {c : Char} {t : List Char},
    (dropSpacesCount Q).2 = c :: t → ∀ r,
    dropSpacesCount (Q ++ r) = ((dropSpacesCount Q).1, c :: (t ++ r)) := by
  intro Q
  induction Q with
  | nil => intro c t h; simp [dropSpacesCount] at h
  | cons b s ih =>
    intro c t h r
    cases hb : pySpace b with
    | true =>
      simp only [dropSpacesCount, hb, if_true] at h
      simp [dropSpacesCount, hb, ih h]
    | false =>
      simp [dropSpacesCount, hb] at h
      obtain ⟨rfl, rfl⟩ := h
      simp [dropSpacesCount, hb]

theorem dropSpacesCount_decomp : ∀ (Q : List Char),
    ∃ ws, (∀ c ∈ ws, pySpace c = true) ∧ ws.length = (dropSpacesCount Q).1 ∧
      Q = ws ++ (dropSpacesCount Q).2 := by
  intro Q
  induction Q with
  | nil => exact ⟨[], by simp [dropSpacesCount]⟩
  | cons b s ih =>
    cases hb : pySpace b with
    | true =>
      obtain ⟨ws, hws, hlen, hdec⟩ := ih
      refine ⟨b :: ws, ?_, ?_, ?_⟩
      · intro c hc
        rcases List.mem_cons.mp hc with rfl | hc
        · exact hb
        · exact hws c hc
      · simp [dropSpacesCount, hb, hlen]
      · simp only [dropSpacesCount, hb, if_true]
        simpa using hdec
    | false => exact ⟨[], by simp [dropSpacesCount, hb]⟩

theorem dropNonBracketCount_head : ∀ {Q : List Char} {c : Char} {t : List Char},
    (dropNonBracketCount Q).2 = c :: t → c = ']' := by
  intro Q
  induction Q with
  | nil => intro c t h; simp [dropNonBracketCount] at h
  | cons b s ih =>
    intro c t h
    by_cases hb : b = ']'
    · simp [dropNonBracketCount, hb] at h
      obtain ⟨rfl, rfl⟩ := h
      rfl
    · simp only [dropNonBracketCount, hb, if_false] at h
      exact ih h

theorem dropNonBracketCount_append : ∀ {Q : List Char} {c : Char} {t : List Char},
    (dropNonBracketCount Q).2 = c :: t → ∀ r,
    dropNonBracketCount (Q ++ r) = ((dropNonBracketCount Q).1, c :: (t ++ r)) := by
  intro Q
  induction Q with
  | nil => intro c t h; simp [dropNonBracketCount] at h
  | cons b s ih =>
    intro c t h r
    by_cases hb : b = ']'
    · simp [dropNonBracketCount, hb] at h
      obtain ⟨rfl, rfl⟩ := h
      simp [dropNonBracketCount, hb]
    · simp only [dropNonBracketCount, hb, if_false] at h
      simp [dropNonBracketCount, hb, ih h]

theorem dropNonBracketCount_decomp : ∀ (Q : List Char),
    ∃ mid, (∀ c ∈ mid, c ≠ ']') ∧ mid.length = (dropNonBracketCount Q).1 ∧
      Q = mid ++ (dropNonBracketCount Q).2 := by
  intro Q
  induction Q with
  | nil => exact ⟨[], by simp [dropNonBracketCount]⟩
  | cons b s ih =>
    by_cases hb : b = ']'
    · exact ⟨[], by simp [dropNonBracketCount, hb]⟩
    · obtain ⟨mid, hmid, hlen, hdec⟩ := ih
      refine ⟨b :: mid, ?_, ?_, ?_⟩
      · intro c hc
        rcases List.mem_cons.mp hc with rfl | hc
        · exact hb
        · exact hmid c hc
      · simp [dropNonBracketCount, hb, hlen]
      · simp only [dropNonBracketCount, hb, if_false]
        simpa using hdec

/-! ### Matcher monotonicity under extension, refutation, decomposition -/

theorem matchAtName_append {n Q : List Char} {len : Nat}
    (h : matchAtName n Q = some len) (r : List Char) :
    matchAtName n (Q ++ r) = some len := by
  unfold matchAtName at h ⊢
  split at h
  · exact absurd h (by simp)
  next s1 h1 =>
    split at h
    · exact absurd h (by simp)
    next s2 h2 =>
      cases hd : (dropSpacesCount s1).2 with
      | nil => rw [hd] at h2; simp [stripLit] at h2
      | cons c t =>
        rw [hd] at h2
        have h2' := stripLit_append h2 r
        rw [List.cons_append] at h2'
        simp [stripLit_append h1 r, dropSpacesCount_append hd r, h2']
        simpa using h

theorem matchAtRequired_append {Q : List Char} {len : Nat}
    (h : matchAtRequired Q = some len) (r : List Char) :
    matchAtRequired (Q ++ r) = some len := by
  unfold matchAtRequired at h ⊢
  split at h
  · exact absurd h (by simp)
  next s1 h1 =>
    split at h
    · exact absurd h (by simp)
    next c s2 hd =>
      split at h
      next hc =>
        split at h
        · exact absurd h (by simp)
        next d t2 h2 =>
          split at h
          next hdz =>
            simp [stripLit_append h1 r, dropSpacesCount_append hd r,
              dropNonBracketCount_append h2 r, hc, hdz]
            simpa using h
          next hdz => exact absurd h (by simp)
      next hc => exact absurd h (by simp)

theorem matchAtCommaBrace_append {Q : List Char} {len : Nat}
    (h : matchAtCommaBrace Q = some len) (r : List Char) :
    matchAtCommaBrace (Q ++ r) = some len := by
  unfold matchAtCommaBrace at h ⊢
  split at h
  · exact absurd h (by simp)
  next c s1 =>
    split at h
    next hc =>
      split at h
      · exact absurd h (by simp)
      next d t hd =>
        split at h
        next hdz =>
          rw [List.cons_append]
          simp [dropSpacesCount_append hd r, hc, hdz]
          simpa using h
        next hdz => exact absurd h (by simp)
    next hc => exact absurd h (by simp)

/-- Definitive refutation of `matchAtName` within `Q` alone: the match fails
for every extension of `Q`. -/
def matchAtNameRefutes (n Q : List Char) : Bool :=
  if litRefutes (strL "name:") Q then true
  else
    match stripLit (strL "name:") Q with
    | none => false
    | some s1 =>
      match (dropSpacesCount s1).2 with
      | [] => false
      | c :: t => litRefutes ('"' :: (n ++ ['"'])) (c :: t)

theorem matchAtNameRefutes_sound {n Q : List Char}
    (h : matchAtNameRefutes n Q = true) (r : List Char) :
    matchAtName n (Q ++ r) = none := by
  unfold matchAtNameRefutes at h
  split at h
  next h0 =>
    unfold matchAtName
    rw [litRefutes_sound h0 r]
  next h0 =>
    split at h
    · simp at h
    next s1 h1 =>
      split at h
      · simp at h
      next c t hd =>
        have hs := litRefutes_sound h r
        rw [List.cons_append] at hs
        unfold matchAtName
        simp [stripLit_append h1 r, dropSpacesCount_append hd r, hs]

/-- Definitive refutation of `matchAtRequired` within `Q` alone. -/
def matchAtRequiredRefutes (Q : List Char) : Bool :=
  if litRefutes (strL "required:") Q then true
  else
    match stripLit (strL "required:") Q with
    | none => false
    | some s1 =>
      match (dropSpacesCount s1).2 with
      | [] => false
      | c :: _ => if c = '[' then false else true

theorem matchAtRequiredRefutes_sound {Q : List Char}
    (h : matchAtRequiredRefutes Q = true) (r : List Char) :
    matchAtRequired (Q ++ r) = none := by
  unfold matchAtRequiredRefutes at h
  split at h
  next h0 =>
    unfold matchAtRequired
    rw [litRefutes_sound h0 r]
  next h0 =>
    split at h
    · simp at h
    next s1 h1 =>
      split at h
      · simp at h
      next c t hd =>
        split at h
        next hc => simp at h
        next hc =>
          unfold matchAtRequired
          simp [stripLit_append h1 r, dropSpacesCount_append hd r, hc]

theorem matchAtCommaBrace_elim {s : List Char} {len : Nat}
    (h : matchAtCommaBrace s = some len) :
    ∃ ws, (∀ c ∈ ws, pySpace c = true) ∧ len = ws.length + 2 ∧
      (',' :: (ws ++ ['\x7d'])) <+: s := by
  unfold matchAtCommaBrace at h
  split at h
  · exact absurd h (by simp)
  next c s1 =>
    split at h
    next hc =>
      split at h
      · exact absurd h (by simp)
      next d t hd =>
        split at h
        next hdz =>
          obtain ⟨ws, hws, hlen, hdec⟩ := dropSpacesCount_decomp s1
          refine ⟨ws, hws, ?_, ⟨t, ?_⟩⟩
          · simp at h; omega
          · rw [hd, hdz] at hdec
            simp [hc, hdec]
        next hdz => exact absurd h (by simp)
    next hc => exact absurd h (by simp)

theorem matchAtRequired_elim {s : List Char} {len : Nat}
    (h : matchAtRequired s = some len) :
    ∃ ws mid, (∀ c ∈ ws, pySpace c = true) ∧ (∀ c ∈ mid, c ≠ ']') ∧
      len = 11 + ws.length + mid.length ∧
      (strL "required:" ++ (ws ++ ('[' :: (mid ++ [']'])))) <+: s := by
  unfold matchAtRequired at h
  split at h
  · exact absurd h (by simp)
  next s1 h1 =>
    split at h
    · exact absurd h (by simp)
    next c s2 hd =>
      split at h
      next hc =>
        split at h
        · exact absurd h (by simp)
        next d t2 h2 =>
          split at h
          next hdz =>
            obtain ⟨ws, hws, hwlen, hwdec⟩ := dropSpacesCount_decomp s1
            obtain ⟨mid, hmid, hmlen, hmdec⟩ := dropNonBracketCount_decomp s2
            refine ⟨ws, mid, hws, hmid, ?_, ⟨t2, ?_⟩⟩
            · simp at h; omega
            · rw [hd, hc] at hwdec
              rw [h2, hdz] at hmdec
              rw [stripLit_decomp h1, hwdec, hmdec]
              simp
          next hdz => exact absurd h (by simp)
      next hc => exact absurd h (by simp)

/-! ### Search specification -/

theorem searchFromAux_intro (p : List Char → Option Nat) :
    ∀ (s : List Char) (i k len : Nat), k ≤ s.length →
    (∀ j, j < k → p (s.drop j) = none) → p (s.drop k) = some len →
    searchFromAux p i s = some (i + k, len) := by
  intro s
  induction s with
  | nil =>
    intro i k len hk h0 hp
    have hz : k = 0 := Nat.le_zero.mp hk
    subst hz
    simp only [List.drop_nil] at hp
    simp [searchFromAux, hp]
  | cons c t ih =>
    intro i k len hk h0 hp
    cases k with
    | zero =>
      simp only [List.drop_zero] at hp
      simp [searchFromAux, hp]
    | succ j =>
      have hnone : p (c :: t) = none := by simpa using h0 0 (Nat.succ_pos j)
      have hrec := ih (i + 1) j len (by simpa using hk)
        (fun m hm => by simpa using h0 (m + 1) (by omega))
        (by simpa using hp)
      simp only [searchFromAux, hnone]
      rw [hrec]
      simp
      omega

theorem searchFrom_intro (p : List Char → Option Nat) :
    ∀ (s : List Char) (i len : Nat), i ≤ s.length →
    (∀ j, j < i → p (s.drop j) = none) → p (s.drop i) = some len →
    searchFrom p s = some (i, len) := by
  intro s i len h1 h2 h3
  have := searchFromAux_intro p s 0 i len h1 h2 h3
  simpa [searchFrom] using this

theorem searchFromAux_elim (p : List Char → Option Nat) :
    ∀ {s : List Char} {i q len : Nat},
    searchFromAux p i s = some (q, len) →
    i ≤ q ∧ q - i ≤ s.length ∧ p (s.drop (q - i)) = some len ∧
      ∀ j, j < q - i → p (s.drop j) = none := by
  intro s
  induction s with
  | nil =>
    intro i q len h
    unfold searchFromAux at h
    split at h
    next l hl =>
      obtain ⟨rfl, rfl⟩ : i = q ∧ l = len := by simpa using h
      exact ⟨le_refl _, by simp, by simpa using hl, by omega⟩
    · simp at h
  | cons c t ih =>
    intro i q len h
    unfold searchFromAux at h
    split at h
    next l hl =>
      obtain ⟨rfl, rfl⟩ : i = q ∧ l = len := by simpa using h
      exact ⟨le_refl _, by simp, by simpa using hl, by omega⟩
    next hl =>
      obtain ⟨h1, h2, h3, h4⟩ := ih h
      have hq : i ≤ q := by omega
      have hqi : q - i = (q - (i + 1)) + 1 := by omega
      refine ⟨hq, by simp only [List.length_cons]; omega, ?_, ?_⟩
      · rw [hqi]
        simpa using h3
      · intro j hj
        cases j with
        | zero => simpa using hl
        | succ m =>
          have := h4 m (by omega)
          simpa using this

theorem searchFrom_elim (p : List Char → Option Nat) :
    ∀ {s : List Char} {i len : Nat}, searchFrom p s = some (i, len) →
    i ≤ s.length ∧ p (s.drop i) = some len ∧ ∀ j, j < i → p (s.drop j) = none := by
  intro s i len h
  obtain ⟨h1, h2, h3, h4⟩ := searchFromAux_elim p (by simpa [searchFrom] using h)
  refine ⟨by simpa using h2, by simpa using h3, fun j hj => h4 j (by simpa using hj)⟩

/-! ### Substring check -/

theorem isPrefixB_iff {p : List Char} : ∀ {s : List Char},
    isPrefixB p s = true ↔ p <+: s := by
  induction p with
  | nil => intro s; simp [isPrefixB]
  | cons a q ih =>
    intro s
    cases s with
    | nil => simp [isPrefixB]
    | cons b t =>
      simp only [isPrefixB, Bool.and_eq_true, beq_iff_eq]
      constructor
      · rintro ⟨rfl, h2⟩
        obtain ⟨u, hu⟩ := ih.mp h2
        exact ⟨u, by simp [hu]⟩
      · rintro ⟨u, hu⟩
        simp only [List.cons_append, List.cons.injEq] at hu
        obtain ⟨rfl, hu⟩ := hu
        exact ⟨rfl, ih.mpr ⟨u, hu⟩⟩

theorem containsSub_iff {pat : List Char} : ∀ {s : List Char},
    containsSub pat s = true ↔ pat <:+: s := by
  intro s
  induction s with
  | nil =>
    simp only [containsSub, List.infix_nil]
    rw [isPrefixB_iff, List.prefix_nil]
  | cons c t ih =>
    simp only [containsSub, Bool.or_eq_true, List.infix_cons_iff]
    rw [isPrefixB_iff, ih]

/-! ### Shape of the splice operation -/

theorem add_shape (content n ty ti : List Char) :
    ((add_annotation_to_tool content n ty ti).2 = false ∧
     (add_annotation_to_tool content n ty ti).1 = content) ∨
    ((add_annotation_to_tool content n ty ti).2 = true ∧
     ∃ ts nlen rs rlen cs clen,
       searchFrom (matchAtName n) content = some (ts, nlen) ∧
       containsSub marker ((content.drop ts).take 1000) = false ∧
       searchFrom matchAtRequired ((content.drop ts).take 2000) = some (rs, rlen) ∧
       searchFrom matchAtCommaBrace ((content.drop (ts + rs + rlen)).take 50) =
         some (cs, clen) ∧
       (add_annotation_to_tool content n ty ti).1 =
         content.take (ts + rs + rlen + cs + 1) ++ annotation_block ty ti ++
           content.drop (ts + rs + rlen + cs + 1)) := by
  unfold add_annotation_to_tool
  split
  · left; simp
  next m hm =>
    obtain ⟨ts, nlen⟩ := m
    split
    next hmk => left; simp
    next hmk =>
      split
      · left; simp
      next r hr =>
        obtain ⟨rs, rlen⟩ := r
        split
        · left; simp
        next cm hc =>
          obtain ⟨cs, clen⟩ := cm
          right
          exact ⟨rfl, ts, nlen, rs, rlen, cs, clen, hm, by simpa using hmk, hr, hc, rfl⟩

theorem prefix_get? {α : Type} {l s : List α} (h : l <+: s) {i : Nat} {x : α}
    (hx : l.get? i = some x) : s.get? i = some x := by
  obtain ⟨u, rfl⟩ := h
  have hi : i < l.length := by
    rcases List.get?_eq_some.mp hx with ⟨hlt, _⟩
    exact hlt
  rw [List.get?_append hi]
  exact hx

/-- C10: the buffer returned by `add_annotation_to_tool` is the input buffer
with either nothing or exactly one annotation block inserted at a single
position: it equals `take p ++ block? ++ drop p` of the input, so no existing
character is deleted, replaced or reordered. -/
theorem C10_insertion_frame (content n ty ti : List Char) :
    ∃ p, p ≤ content.length ∧
      (add_annotation_to_tool content n ty ti).1 =
        content.take p ++
          (if (add_annotation_to_tool content n ty ti).2 then
            annotation_block ty ti else []) ++
          content.drop p := by
  rcases add_shape content n ty ti with ⟨h2, h1⟩ |
    ⟨h2, ts, nlen, rs, rlen, cs, clen, hm, hmk, hr, hc, h1⟩
  · exact ⟨0, by simp [h2, h1]⟩
  · refine ⟨ts + rs + rlen + cs + 1, ?_, by simp [h2, h1]⟩
    obtain ⟨hcle, hcp, -⟩ := searchFrom_elim matchAtCommaBrace hc
    obtain ⟨ws, -, -, hpre⟩ := matchAtCommaBrace_elim hcp
    have hne : ((content.drop (ts + rs + rlen)).take 50).drop cs ≠ [] := by
      intro hnil
      rw [hnil] at hpre
      simp [List.prefix_nil] at hpre
    have hlt : cs < ((content.drop (ts + rs + rlen)).take 50).length := by
      by_contra hge
      exact hne (List.drop_eq_nil_of_le (by omega))
    have hlen50 : ((content.drop (ts + rs + rlen)).take 50).length ≤
        content.length - (ts + rs + rlen) := by
      rw [List.length_take, List.length_drop]
      omega
    omega

/-- C3: whenever processing an entry fails (`modified = False`), the returned
buffer is the input buffer itself, and the controller keeps the working
buffer, increments only the skipped counter, and logs one skip line. -/
theorem C3_failure_leaves_buffer (content n ty ti : List Char) (m s : Nat)
    (lg : List Ev) (h : (add_annotation_to_tool content n ty ti).2 = false) :
    (add_annotation_to_tool content n ty ti).1 = content ∧
    processEntry ⟨content, m, s, lg⟩ ⟨n, ty, ti⟩ =
      ⟨content, m, s + 1, lg ++ [Ev.print (skippedLine n)]⟩ := by
  rcases add_shape content n ty ti with ⟨-, h1⟩ | ⟨h2, -⟩
  · exact ⟨h1, by simp [processEntry, h, h1]⟩
  · rw [h] at h2; exact absurd h2 (by simp)

/-- Witness for C3: on the empty buffer every entry fails and is skipped. -/
theorem C3_failure_leaves_buffer_witness :
    (add_annotation_to_tool [] (strL "autotask_create_task")
      (strL "CREATE_ANNOTATIONS") (strL "Create Task")).1 = [] ∧
    processEntry ⟨[], 0, 0, []⟩
      ⟨strL "autotask_create_task", strL "CREATE_ANNOTATIONS", strL "Create Task"⟩ =
      ⟨[], 0, 0 + 1, [] ++ [Ev.print (skippedLine (strL "autotask_create_task"))]⟩ :=
  C3_failure_leaves_buffer [] (strL "autotask_create_task")
    (strL "CREATE_ANNOTATIONS") (strL "Create Task") 0 0 [] (by decide)

/-- C1: when the splice succeeds, the result is the input buffer with exactly
one copy of the fixed annotation template (carrying the given title and
category label) inserted at one position: right after the comma that follows
the located `required:[...]` list (whose match ends with `]`), and before the
whitespace-then-`}` closing delimiter; all other characters are unchanged. -/
theorem C1_splice_inserts_block (content n ty ti nc : List Char)
    (h : add_annotation_to_tool content n ty ti = (nc, true)) :
    ∃ ts nlen rs rlen cs ws,
      searchFrom (matchAtName n) content = some (ts, nlen) ∧
      containsSub marker ((content.drop ts).take 1000) = false ∧
      searchFrom matchAtRequired ((content.drop ts).take 2000) = some (rs, rlen) ∧
      content.get? (ts + rs + rlen - 1) = some ']' ∧
      searchFrom matchAtCommaBrace ((content.drop (ts + rs + rlen)).take 50) =
        some (cs, ws.length + 2) ∧
      content.get? (ts + rs + rlen + cs) = some ',' ∧
      (∀ c ∈ ws, pySpace c = true) ∧
      (ws ++ ['\x7d']) <+: content.drop (ts + rs + rlen + cs + 1) ∧
      ts + rs + rlen + cs + 1 ≤ content.length ∧
      nc = content.take (ts + rs + rlen + cs + 1) ++ annotation_block ty ti ++
        content.drop (ts + rs + rlen + cs + 1) := by
  have h2 : (add_annotation_to_tool content n ty ti).2 = true := by rw [h]
  have h1eq : (add_annotation_to_tool content n ty ti).1 = nc := by rw [h]
  rcases add_shape content n ty ti with ⟨hf, -⟩ |
    ⟨-, ts, nlen, rs, rlen, cs, clen, hm, hmk, hr, hc, h1⟩
  · rw [h2] at hf; exact absurd hf (by simp)
  -- facts about the required-list match
  obtain ⟨hrle, hrp, -⟩ := searchFrom_elim matchAtRequired hr
  obtain ⟨wsr, midr, -, -, hrlen, hrpre⟩ := matchAtRequired_elim hrp
  have hsplit : strL "required:" ++ (wsr ++ ('[' :: (midr ++ [']']))) =
      (strL "required:" ++ wsr ++ '[' :: midr) ++ [']'] := by simp
  rw [hsplit] at hrpre
  have hrplen : rlen ≤ (((content.drop ts).take 2000).drop rs).length := by
    have := hrpre.length_le
    simp only [List.length_append, List.length_cons] at this
    have h9 : (strL "required:").length = 9 := by decide
    omega
  have hw2len : ((content.drop ts).take 2000).length ≤ 2000 := by
    rw [List.length_take]
    exact Nat.min_le_left _ _
  have hgetP := List.get?_concat_length (strL "required:" ++ wsr ++ '[' :: midr) ']'
  have hPidx : (strL "required:" ++ wsr ++ '[' :: midr).length = rlen - 1 := by
    have h9 : (strL "required:").length = 9 := by decide
    simp only [List.length_append, List.length_cons, h9]
    omega
  rw [hPidx] at hgetP
  have hget1 := prefix_get? hrpre hgetP
  rw [List.get?_drop] at hget1
  have hidx2000 : rs + (rlen - 1) < 2000 := by
    rw [List.length_drop] at hrplen
    omega
  rw [List.get?_take hidx2000, List.get?_drop] at hget1
  have hbridx : ts + (rs + (rlen - 1)) = ts + rs + rlen - 1 := by omega
  rw [hbridx] at hget1
  -- facts about the comma-brace match
  obtain ⟨hcle, hcp, -⟩ := searchFrom_elim matchAtCommaBrace hc
  obtain ⟨ws, hws, hclen, hcpre⟩ := matchAtCommaBrace_elim hcp
  rw [hclen] at hc
  have hcplen : ws.length + 2 ≤
      (((content.drop (ts + rs + rlen)).take 50).drop cs).length := by
    have := hcpre.length_le
    simpa using this
  have hw3len : ((content.drop (ts + rs + rlen)).take 50).length ≤ 50 := by
    rw [List.length_take]
    exact Nat.min_le_left _ _
  have hcs50 : cs < 50 := by
    rw [List.length_drop] at hcplen
    omega
  have hgetc : ((',' : Char) :: (ws ++ ['\x7d'])).get? 0 = some ',' := rfl
  have hget2 := prefix_get? hcpre hgetc
  rw [List.get?_drop] at hget2
  rw [List.get?_take (by omega : cs + 0 < 50), List.get?_drop] at hget2
  have hcidx : ts + rs + rlen + (cs + 0) = ts + rs + rlen + cs := by omega
  rw [hcidx] at hget2
  -- the suffix after the insertion point starts with spaces then a brace
  obtain ⟨u, hu⟩ := hcpre
  have hdrop1 : ((content.drop (ts + rs + rlen)).take 50).drop (cs + 1) =
      (ws ++ ['\x7d']) ++ u := by
    have := congrArg (List.drop 1) hu
    simp only [List.cons_append, List.drop_succ_cons, List.drop_zero] at this
    rw [this, List.drop_drop]
  have hdt : ((content.drop (ts + rs + rlen)).take 50).drop (cs + 1) =
      ((content.drop (ts + rs + rlen + (cs + 1)))).take (50 - (cs + 1)) := by
    rw [List.drop_take, List.drop_drop]
  have htail : (ws ++ ['\x7d']) <+: content.drop (ts + rs + rlen + cs + 1) := by
    have hpref : (ws ++ ['\x7d']) <+:
        ((content.drop (ts + rs + rlen + (cs + 1)))).take (50 - (cs + 1)) := by
      rw [← hdt, hdrop1]
      exact ⟨u, rfl⟩
    have := hpref.trans ⟨_, List.take_append_drop _ _⟩
    have hia : ts + rs + rlen + (cs + 1) = ts + rs + rlen + cs + 1 := by omega
    rwa [hia] at this
  -- bound on the insertion position
  have hw3lenle : ((content.drop (ts + rs + rlen)).take 50).length ≤
      content.length - (ts + rs + rlen) := by
    rw [List.length_take, List.length_drop]
    exact Nat.min_le_right _ _
  have hple : ts + rs + rlen + cs + 1 ≤ content.length := by
    rw [List.length_drop] at hcplen
    omega
  exact ⟨ts, nlen, rs, rlen, cs, ws, hm, hmk, hr, hget1, hc, hget2, hws, htail,
    hple, by rw [← h1eq, h1]⟩

/-- Witness buffer for C1: one well-formed declaration for `"foo"`. -/
def C1wit : List Char := strL "name:\"foo\" required:[\"id\"],  \x7d tail"

/-- Witness for C1: the splice succeeds on `C1wit` and the conclusion holds. -/
theorem C1_splice_inserts_block_witness :
    ∃ ts nlen rs rlen cs ws,
      searchFrom (matchAtName (strL "foo")) C1wit = some (ts, nlen) ∧
      containsSub marker ((C1wit.drop ts).take 1000) = false ∧
      searchFrom matchAtRequired ((C1wit.drop ts).take 2000) = some (rs, rlen) ∧
      C1wit.get? (ts + rs + rlen - 1) = some ']' ∧
      searchFrom matchAtCommaBrace ((C1wit.drop (ts + rs + rlen)).take 50) =
        some (cs, ws.length + 2) ∧
      C1wit.get? (ts + rs + rlen + cs) = some ',' ∧
      (∀ c ∈ ws, pySpace c = true) ∧
      (ws ++ ['\x7d']) <+: C1wit.drop (ts + rs + rlen + cs + 1) ∧
      ts + rs + rlen + cs + 1 ≤ C1wit.length ∧
      (add_annotation_to_tool C1wit (strL "foo") (strL "READ_ONLY_ANNOTATIONS")
          (strL "Search Companies")).1 =
        C1wit.take (ts + rs + rlen + cs + 1) ++
          annotation_block (strL "READ_ONLY_ANNOTATIONS") (strL "Search Companies") ++
          C1wit.drop (ts + rs + rlen + cs + 1) :=
  C1_splice_inserts_block C1wit (strL "foo") (strL "READ_ONLY_ANNOTATIONS")
    (strL "Search Companies") _ (by decide)

/-! ### The run controller -/

theorem skip_of_annotated {content : List Char} {e : ToolEntry}
    (h : entryAnnotated content e = true) :
    add_annotation_to_tool content e.name e.atype e.title = (content, false) := by
  unfold entryAnnotated at h
  split at h
  next m hm =>
    unfold add_annotation_to_tool
    rw [hm]
    simp [h]
  · simp at h

theorem foldl_all_skip : ∀ (L : List ToolEntry) (st : RunState),
    (∀ e ∈ L, entryAnnotated st.content e = true) →
    L.foldl processEntry st =
      ⟨st.content, st.modified_count, st.skipped_count + L.length,
       st.log ++ L.map (fun e => Ev.print (skippedLine e.name))⟩ := by
  intro L
  induction L with
  | nil => intro st h; simp
  | cons e L ih =>
    intro st h
    have he := skip_of_annotated (h e (by simp))
    have hstep : processEntry st e =
        ⟨st.content, st.modified_count, st.skipped_count + 1,
         st.log ++ [Ev.print (skippedLine e.name)]⟩ := by
      simp [processEntry, he]
    rw [List.foldl_cons, hstep]
    rw [ih ⟨st.content, st.modified_count, st.skipped_count + 1,
        st.log ++ [Ev.print (skippedLine e.name)]⟩
      (fun e' he' => h e' (List.mem_cons_of_mem _ he'))]
    simp [List.append_assoc] <;> omega

theorem foldl_counts : ∀ (L : List ToolEntry) (st : RunState),
    (L.foldl processEntry st).modified_count +
      (L.foldl processEntry st).skipped_count =
      st.modified_count + st.skipped_count + L.length ∧
    (L.foldl processEntry st).log.length = st.log.length + L.length := by
  intro L
  induction L with
  | nil => intro st; simp
  | cons e L ih =>
    intro st
    rw [List.foldl_cons]
    obtain ⟨ih1, ih2⟩ := ih (processEntry st e)
    constructor
    · rw [ih1]
      unfold processEntry
      split <;> simp <;> omega
    · rw [ih2]
      unfold processEntry
      split <;> simp <;> omega

theorem foldl_log_prints : ∀ (L : List ToolEntry) (st : RunState),
    (∀ ev ∈ st.log, ∃ l, ev = Ev.print l) →
    ∀ ev ∈ (L.foldl processEntry st).log, ∃ l, ev = Ev.print l := by
  intro L
  induction L with
  | nil => intro st h; simpa using h
  | cons e L ih =>
    intro st h
    rw [List.foldl_cons]
    refine ih (processEntry st e) ?_
    intro ev hev
    unfold processEntry at hev
    split at hev <;>
      simp only [List.mem_append, List.mem_singleton] at hev <;>
      rcases hev with hev | rfl
    · exact h ev hev
    · exact ⟨_, rfl⟩
    · exact h ev hev
    · exact ⟨_, rfl⟩

theorem runPass_log_prints (content : List Char) :
    ∀ ev ∈ (runPass content).log, ∃ l, ev = Ev.print l :=
  foldl_log_prints TOOL_ANNOTATIONS ⟨content, 0, 0, []⟩ (by simp)

theorem backupPath_ne_handlerPath (sd : List Char) :
    backupPath sd ≠ handlerPath sd := by
  intro heq
  rw [backupPath, handlerPath] at heq
  exact absurd (List.append_cancel_left heq) (by decide)

theorem handlerPath_ne_backupPath (sd : List Char) :
    handlerPath sd ≠ backupPath sd :=
  fun heq => backupPath_ne_handlerPath sd heq.symm

/-- C2: on a buffer where every table entry's declaration is found and already
carries the marker token in its 1000-character window, the whole pass makes
zero modifications, skips all 36 entries, leaves the working buffer unchanged,
a second pass over the first pass's output is identical (so it also modifies
nothing), and `main` never writes the target file and leaves it unchanged. -/
theorem C2_idempotent_when_annotated (sd content : List Char)
    (h : ∀ e ∈ TOOL_ANNOTATIONS, entryAnnotated content e = true) :
    (runPass content).content = content ∧
    (runPass content).modified_count = 0 ∧
    (runPass content).skipped_count = TOOL_ANNOTATIONS.length ∧
    runPass ((runPass content).content) = runPass content ∧
    (main_model sd (some content)).trace.filter (evWritesTo (handlerPath sd)) = [] ∧
    (main_model sd (some content)).fileAfter = some content := by
  have hrp : runPass content = ⟨content, 0, TOOL_ANNOTATIONS.length,
      TOOL_ANNOTATIONS.map (fun e => Ev.print (skippedLine e.name))⟩ := by
    rw [runPass, foldl_all_skip TOOL_ANNOTATIONS ⟨content, 0, 0, []⟩ (by simpa using h)]
    simp
  refine ⟨by rw [hrp], by rw [hrp], by rw [hrp], by simp [hrp], ?_, ?_⟩
  · simp only [main_model, hrp]
    simp [List.filter_append, evWritesTo, backupPath_ne_handlerPath sd,
      List.filter_map]
  · simp [main_model, hrp]

/-- C9: every entry of the table contributes to exactly one of the two
counters, so after the loop `modified_count + skipped_count` equals the table
size (36), and the loop prints exactly one outcome line per entry. -/
theorem C9_counters_partition (content : List Char) :
    (runPass content).modified_count + (runPass content).skipped_count =
      TOOL_ANNOTATIONS.length ∧
    (runPass content).log.length = TOOL_ANNOTATIONS.length ∧
    TOOL_ANNOTATIONS.length = 36 := by
  obtain ⟨h1, h2⟩ := foldl_counts TOOL_ANNOTATIONS ⟨content, 0, 0, []⟩
  exact ⟨by simpa using h1, by simpa using h2, by decide⟩

/-- C4: the run exits 0 on every normal completion (whatever the target
content, including the no-op case) and exits 1 exactly when the target file is
missing, in which case the only effect is one error line that contains the
attempted path — no file is read or written, so no backup is created. -/
theorem C4_exit_codes (sd c : List Char) :
    (main_model sd none).exitCode = 1 ∧
    (main_model sd (some c)).exitCode = 0 ∧
    (main_model sd none).trace =
      [Ev.print (strL "Error: Could not find " ++ handlerPath sd)] ∧
    (main_model sd none).trace.filter evIsWrite = [] ∧
    handlerPath sd <:+: (strL "Error: Could not find " ++ handlerPath sd) ∧
    (main_model sd none).fileAfter = none := by
  refine ⟨rfl, ?_, rfl, by simp [main_model, evIsWrite],
    ⟨strL "Error: Could not find ", [], by simp⟩, rfl⟩
  simp only [main_model]
  split <;> rfl

/-- Witness buffer for C2: every table entry present, each immediately
followed by the marker token. -/
def C2wit : List Char := strL "name:\"autotask_test_connection\" annotations: name:\"autotask_search_companies\" annotations: name:\"autotask_create_company\" annotations: name:\"autotask_update_company\" annotations: name:\"autotask_search_contacts\" annotations: name:\"autotask_create_contact\" annotations: name:\"autotask_search_tickets\" annotations: name:\"autotask_get_ticket_details\" annotations: name:\"autotask_create_ticket\" annotations: name:\"autotask_update_ticket\" annotations: name:\"autotask_create_time_entry\" annotations: name:\"autotask_search_projects\" annotations: name:\"autotask_create_project\" annotations: name:\"autotask_search_resources\" annotations: name:\"autotask_get_ticket_note\" annotations: name:\"autotask_search_ticket_notes\" annotations: name:\"autotask_create_ticket_note\" annotations: name:\"autotask_get_project_note\" annotations: name:\"autotask_search_project_notes\" annotations: name:\"autotask_create_project_note\" annotations: name:\"autotask_get_company_note\" annotations: name:\"autotask_search_company_notes\" annotations: name:\"autotask_create_company_note\" annotations: name:\"autotask_search_ticket_attachments\" annotations: name:\"autotask_get_ticket_attachment\" annotations: name:\"autotask_get_expense_report\" annotations: name:\"autotask_search_expense_reports\" annotations: name:\"autotask_create_expense_report\" annotations: name:\"autotask_get_quote\" annotations: name:\"autotask_search_quotes\" annotations: name:\"autotask_create_quote\" annotations: name:\"autotask_search_configuration_items\" annotations: name:\"autotask_search_contracts\" annotations: name:\"autotask_search_invoices\" annotations: name:\"autotask_search_tasks\" annotations: name:\"autotask_create_task\" annotations: "

/-- Witness for C2: the fully annotated buffer `C2wit` satisfies the
hypothesis, and the pass is a no-op on it. -/
theorem C2_idempotent_when_annotated_witness :
    (runPass C2wit).content = C2wit ∧
    (runPass C2wit).modified_count = 0 ∧
    (runPass C2wit).skipped_count = TOOL_ANNOTATIONS.length ∧
    runPass ((runPass C2wit).content) = runPass C2wit ∧
    (main_model [] (some C2wit)).trace.filter (evWritesTo (handlerPath [])) = [] ∧
    (main_model [] (some C2wit)).fileAfter = some C2wit :=
  C2_idempotent_when_annotated [] C2wit (by decide)

theorem evWritesTo_print (p x : List Char) : evWritesTo p (Ev.print x) = false := rfl

theorem evWritesTo_fsRead (p q : List Char) : evWritesTo p (Ev.fsRead q) = false := rfl

theorem evWritesTo_fsWrite (p q c : List Char) :
    evWritesTo p (Ev.fsWrite q c) = if q = p then true else false := rfl

theorem evReadsFrom_print (p x : List Char) : evReadsFrom p (Ev.print x) = false := rfl

theorem evReadsFrom_fsWrite (p q c : List Char) :
    evReadsFrom p (Ev.fsWrite q c) = false := rfl

theorem evReadsFrom_fsRead (p q : List Char) :
    evReadsFrom p (Ev.fsRead q) = if q = p then true else false := rfl

theorem filter_cons_true {α : Type} {p : α → Bool} {a : α} (l : List α)
    (h : p a = true) : List.filter p (a :: l) = a :: List.filter p l := by
  simp [List.filter_cons, h]

theorem filter_cons_false {α : Type} {p : α → Bool} {a : α} (l : List α)
    (h : p a = false) : List.filter p (a :: l) = List.filter p l := by
  simp [List.filter_cons, h]

/-- C6: when the target exists, the trace opens with one read of the target
and exactly one write of the pristine content to the backup path (a sibling of
the target, in the same directory), before any entry outcome and before any
write of the target; no later event writes to or reads from the backup. -/
theorem C6_backup_once_before_loop (sd c : List Char) :
    ∃ tailEvs,
      (main_model sd (some c)).trace =
        [Ev.print (strL "Reading " ++ handlerPath sd ++ strL "..."),
         Ev.fsRead (handlerPath sd),
         Ev.fsWrite (backupPath sd) c,
         Ev.print (strL "Created backup at " ++ backupPath sd)] ++
        (runPass c).log ++ tailEvs ∧
      (main_model sd (some c)).trace.filter (evWritesTo (backupPath sd)) =
        [Ev.fsWrite (backupPath sd) c] ∧
      (main_model sd (some c)).trace.filter (evReadsFrom (backupPath sd)) = [] ∧
      backupPath sd =
        sd ++ (strL "/src/handlers/" ++ strL "tool.handler.ts.backup-annotations") ∧
      handlerPath sd = sd ++ (strL "/src/handlers/" ++ strL "tool.handler.ts") := by
  have hlogW : (runPass c).log.filter (evWritesTo (backupPath sd)) = [] := by
    rw [List.filter_eq_nil]
    intro ev hev
    obtain ⟨l, rfl⟩ := runPass_log_prints c ev hev
    simp [evWritesTo]
  have hlogR : (runPass c).log.filter (evReadsFrom (backupPath sd)) = [] := by
    rw [List.filter_eq_nil]
    intro ev hev
    obtain ⟨l, rfl⟩ := runPass_log_prints c ev hev
    simp [evReadsFrom]
  have hbp : backupPath sd =
      sd ++ (strL "/src/handlers/" ++ strL "tool.handler.ts.backup-annotations") := by
    rw [backupPath]
    exact congrArg (sd ++ ·) (by decide)
  have hhp : handlerPath sd =
      sd ++ (strL "/src/handlers/" ++ strL "tool.handler.ts") := by
    rw [handlerPath]
    exact congrArg (sd ++ ·) (by decide)
  have hne := handlerPath_ne_backupPath sd
  have e1 : evWritesTo (backupPath sd) (Ev.fsWrite (backupPath sd) c) = true := by
    simp [evWritesTo_fsWrite]
  have e3 : evReadsFrom (backupPath sd) (Ev.fsRead (handlerPath sd)) = false := by
    simp [evReadsFrom_fsRead, hne]
  by_cases hm : (runPass c).modified_count > 0
  · have e2 : evWritesTo (backupPath sd)
        (Ev.fsWrite (handlerPath sd) (runPass c).content) = false := by
      simp [evWritesTo_fsWrite, hne]
    have htrace : (main_model sd (some c)).trace =
        [Ev.print (strL "Reading " ++ handlerPath sd ++ strL "..."),
         Ev.fsRead (handlerPath sd),
         Ev.fsWrite (backupPath sd) c,
         Ev.print (strL "Created backup at " ++ backupPath sd)] ++
        (runPass c).log ++
        [Ev.fsWrite (handlerPath sd) (runPass c).content,
         Ev.print (strL "\n✓ Successfully added annotations to " ++
           strL (Nat.repr (runPass c).modified_count) ++ strL " tools"),
         Ev.print (strL "  (" ++ strL (Nat.repr (runPass c).skipped_count) ++
           strL " tools skipped)")] := by
      simp [main_model, hm]
    refine ⟨_, htrace, ?_, ?_, hbp, hhp⟩
    · rw [htrace, List.filter_append, List.filter_append, hlogW,
        filter_cons_false _ (evWritesTo_print _ _),
        filter_cons_false _ (evWritesTo_fsRead _ _),
        filter_cons_true _ e1,
        filter_cons_false _ (evWritesTo_print _ _), List.filter_nil,
        filter_cons_false _ e2,
        filter_cons_false _ (evWritesTo_print _ _),
        filter_cons_false _ (evWritesTo_print _ _), List.filter_nil]
      simp
    · rw [htrace, List.filter_append, List.filter_append, hlogR,
        filter_cons_false _ (evReadsFrom_print _ _),
        filter_cons_false _ e3,
        filter_cons_false _ (evReadsFrom_fsWrite _ _ _),
        filter_cons_false _ (evReadsFrom_print _ _), List.filter_nil,
        filter_cons_false _ (evReadsFrom_fsWrite _ _ _),
        filter_cons_false _ (evReadsFrom_print _ _),
        filter_cons_false _ (evReadsFrom_print _ _), List.filter_nil]
      simp
  · have htrace : (main_model sd (some c)).trace =
        [Ev.print (strL "Reading " ++ handlerPath sd ++ strL "..."),
         Ev.fsRead (handlerPath sd),
         Ev.fsWrite (backupPath sd) c,
         Ev.print (strL "Created backup at " ++ backupPath sd)] ++
        (runPass c).log ++
        [Ev.print (strL "\nNo changes needed - all tools already have annotations")] := by
      simp [main_model, hm]
    refine ⟨_, htrace, ?_, ?_, hbp, hhp⟩
    · rw [htrace, List.filter_append, List.filter_append, hlogW,
        filter_cons_false _ (evWritesTo_print _ _),
        filter_cons_false _ (evWritesTo_fsRead _ _),
        filter_cons_true _ e1,
        filter_cons_false _ (evWritesTo_print _ _), List.filter_nil,
        filter_cons_false _ (evWritesTo_print _ _), List.filter_nil]
      simp
    · rw [htrace, List.filter_append, List.filter_append, hlogR,
        filter_cons_false _ (evReadsFrom_print _ _),
        filter_cons_false _ e3,
        filter_cons_false _ (evReadsFrom_fsWrite _ _ _),
        filter_cons_false _ (evReadsFrom_print _ _), List.filter_nil,
        filter_cons_false _ (evReadsFrom_print _ _), List.filter_nil]
      simp

/-- C7: the already-annotated check is exactly a substring test for the marker
token in the 1000-character window starting at the located declaration offset,
and a positive check makes the entry a skip with no mutation. -/
theorem C7_marker_window_check (content n ty ti : List Char) (ts nlen : Nat)
    (h : searchFrom (matchAtName n) content = some (ts, nlen)) :
    (containsSub marker ((content.drop ts).take 1000) = true ↔
      marker <:+: (content.drop ts).take 1000) ∧
    (containsSub marker ((content.drop ts).take 1000) = true →
      add_annotation_to_tool content n ty ti = (content, false)) := by
  refine ⟨containsSub_iff, fun hmk => ?_⟩
  unfold add_annotation_to_tool
  rw [h]
  simp [hmk]

/-- Witness buffer for C7: the declaration of `"a"` followed by the marker. -/
def C7wit : List Char := strL "name:\"a\" annotations:"

/-- Witness for C7: on `C7wit` the check is positive and the entry is
skipped with no mutation. -/
theorem C7_marker_window_check_witness :
    add_annotation_to_tool C7wit (strL "a") (strL "TEST_ANNOTATIONS")
      (strL "Test Connection") = (C7wit, false) :=
  (C7_marker_window_check C7wit (strL "a") (strL "TEST_ANNOTATIONS")
    (strL "Test Connection") 0 8 (by decide)).2 (by decide)

/-! ### The brace-counting helper -/

theorem ftdeGo_spec : ∀ (s : List Char) (bc : Int) (it : Bool) (i j : Nat),
    ftdeGo s bc it i = some j →
    i ≤ j ∧ j - i < s.length ∧ s.get? (j - i) = some '\x7d' ∧
    bc + ((s.take (j - i + 1)).count '\x7b' : Int) -
      ((s.take (j - i + 1)).count '\x7d' : Int) = 0 ∧
    (it = true ∨ 1 ≤ (s.take (j - i + 1)).count '\x7b') := by
  intro s
  induction s with
  | nil => intro bc it i j h; simp [ftdeGo] at h
  | cons c t ih =>
    intro bc it i j h
    simp only [ftdeGo] at h
    by_cases hob : c = '\x7b'
    · rw [if_pos hob] at h
      obtain ⟨ih1, ih2, ih3, ih4, ih5⟩ := ih (bc + 1) true (i + 1) j h
      have hji : j - i = (j - (i + 1)) + 1 := by omega
      refine ⟨by omega, by simp only [List.length_cons]; omega, ?_, ?_, ?_⟩
      · rw [hji]
        simpa using ih3
      · rw [hji, List.take_succ_cons]
        simp only [List.count_cons, hob]
        simp
        push_cast at ih4 ⊢
        omega
      · right
        rw [hji, List.take_succ_cons]
        simp only [List.count_cons, hob]
        simp
    · rw [if_neg hob] at h
      by_cases hcb : c = '\x7d'
      · rw [if_pos hcb] at h
        split at h
        next hcond =>
          obtain ⟨hit, hbc⟩ := hcond
          have hij : i = j := by simpa using h
          subst hij
          refine ⟨le_refl _, by simp, ?_, ?_, Or.inl hit⟩
          · simp [hcb]
          · simp [List.take_succ_cons, List.count_cons, hcb, List.count_nil]
            omega
        next hcond =>
          obtain ⟨ih1, ih2, ih3, ih4, ih5⟩ := ih (bc - 1) it (i + 1) j h
          have hji : j - i = (j - (i + 1)) + 1 := by omega
          refine ⟨by omega, by simp only [List.length_cons]; omega, ?_, ?_, ?_⟩
          · rw [hji]
            simpa using ih3
          · rw [hji, List.take_succ_cons]
            simp only [List.count_cons, hob, hcb]
            simp
            push_cast at ih4 ⊢
            omega
          · rw [hji, List.take_succ_cons]
            rcases ih5 with h5 | h5
            · exact Or.inl h5
            · simp only [List.count_cons]
              exact Or.inr (le_trans h5 (Nat.le_add_right _ _))
      · rw [if_neg hcb] at h
        obtain ⟨ih1, ih2, ih3, ih4, ih5⟩ := ih bc it (i + 1) j h
        have hji : j - i = (j - (i + 1)) + 1 := by omega
        refine ⟨by omega, by simp only [List.length_cons]; omega, ?_, ?_, ?_⟩
        · rw [hji]
          simpa using ih3
        · rw [hji, List.take_succ_cons]
          simp only [List.count_cons, hob, hcb]
          simp [hob, hcb]
          push_cast at ih4 ⊢
          omega
        · rw [hji, List.take_succ_cons]
          rcases ih5 with h5 | h5
          · exact Or.inl h5
          · simp only [List.count_cons]
            exact Or.inr (le_trans h5 (Nat.le_add_right _ _))

/-- C8 (amended): the brace-counting helper `find_tool_definition_end` does
perform balanced-delimiter matching — when it returns an index, that index
holds a `}`, the braces over the scanned segment balance exactly, and at least
one `{` was seen — but no sub-case of the entry-processing scan invokes it
(see the counterexample: every sub-case is bounded by a fixed window). -/
theorem C8_brace_helper_balanced (content : List Char) (startPos j : Nat)
    (h : find_tool_definition_end content startPos = some j) :
    startPos ≤ j ∧ j < content.length ∧ content.get? j = some '\x7d' ∧
    ((content.drop startPos).take (j - startPos + 1)).count '\x7b' =
      ((content.drop startPos).take (j - startPos + 1)).count '\x7d' ∧
    1 ≤ ((content.drop startPos).take (j - startPos + 1)).count '\x7b' := by
  obtain ⟨h1, h2, h3, h4, h5⟩ :=
    ftdeGo_spec (content.drop startPos) 0 false startPos j h
  rw [List.length_drop] at h2
  refine ⟨h1, by omega, ?_, by omega, ?_⟩
  · rw [List.get?_drop] at h3
    rwa [show startPos + (j - startPos) = j by omega] at h3
  · rcases h5 with h5 | h5
    · simp at h5
    · exact h5

/-- Witness for C8 (amended): applied to a concrete buffer. -/
theorem C8_brace_helper_balanced_witness :
    0 ≤ 3 ∧ 3 < (strL "x\x7by\x7dz").length ∧
    (strL "x\x7by\x7dz").get? 3 = some '\x7d' ∧
    (((strL "x\x7by\x7dz").drop 0).take (3 - 0 + 1)).count '\x7b' =
      (((strL "x\x7by\x7dz").drop 0).take (3 - 0 + 1)).count '\x7d' ∧
    1 ≤ (((strL "x\x7by\x7dz").drop 0).take (3 - 0 + 1)).count '\x7b' :=
  C8_brace_helper_balanced (strL "x\x7by\x7dz") 0 3 (by decide)

/-- Buffer refuting C8 as stated: a declaration whose `,\s*}` lies beyond the
50-character window but inside the balanced-brace extent of the declaration. -/
def C8ex : List Char :=
  strL "\x7bname:\"autotask_test_connection\" required:[] " ++
    List.replicate 58 'A' ++ strL ",\x7d"

/-- C8 counterexample: on `C8ex`, the scan of `add_annotation_to_tool` fails
(modified = False) because its comma sub-case searches only a fixed 50-character
window, although the brace-counting helper finds the balanced end of the
declaration at index 104 and the window bounded by that balanced end does
contain the `,\s*}` pattern; so no sub-case of the scan is bounded by
balanced-delimiter matching — the helper is never invoked by the run. -/
theorem C8_scan_counterexample :
    add_annotation_to_tool C8ex (strL "autotask_test_connection")
      (strL "TEST_ANNOTATIONS") (strL "Test Connection") = (C8ex, false) ∧
    searchFrom (matchAtName (strL "autotask_test_connection")) C8ex = some (1, 31) ∧
    searchFrom matchAtRequired ((C8ex.drop 1).take 2000) = some (32, 11) ∧
    searchFrom matchAtCommaBrace ((C8ex.drop 44).take 50) = none ∧
    find_tool_definition_end C8ex 0 = some 104 ∧
    searchFrom matchAtCommaBrace ((C8ex.drop 44).take (104 + 1 - 44)) =
      some (59, 2) := by
  refine ⟨by decide, by decide, by decide, by decide, by decide, by decide⟩

/-! ### Two adjacent declarations (scenario D) -/

theorem window_eq (C rest : List Char) (n W : Nat) (hn : n ≤ C.length)
    (hW : C.length - n ≤ W) :
    ((C ++ rest).drop n).take W = C.drop n ++ rest.take (W - (C.length - n)) := by
  rw [List.drop_append_eq_append_drop, show n - C.length = 0 from by omega,
    List.drop_zero, List.take_append_eq_append_take,
    List.take_all_of_le (by rw [List.length_drop]; omega), List.length_drop]

theorem searchFrom_concrete {p : List Char → Option Nat} {P : List Char}
    {i len : Nat} (refutesOK : ∀ j, j < i → ∀ r, p (P.drop j ++ r) = none)
    (hmatch : ∀ r, p (P.drop i ++ r) = some len) (hi : i ≤ P.length)
    (rest : List Char) : searchFrom p (P ++ rest) = some (i, len) := by
  apply searchFrom_intro
  · rw [List.length_append]; omega
  · intro j hj
    rw [List.drop_append_eq_append_drop, show j - P.length = 0 from by omega,
      List.drop_zero]
    exact refutesOK j hj rest
  · rw [List.drop_append_eq_append_drop, show i - P.length = 0 from by omega,
      List.drop_zero]
    exact hmatch rest

/-- First adjacent declaration (scenario D): the first table entry. -/
def C5decl1 : List Char := strL "name:\"autotask_test_connection\" required:[],\x7d"

/-- Second adjacent declaration (scenario D): the second table entry. -/
def C5decl2 : List Char := strL "name:\"autotask_search_companies\" required:[],\x7d"

/-- Buffer with the two declarations adjacent in the text. -/
def C5content : List Char := C5decl1 ++ C5decl2

/-- The buffer after the first entry's annotation is spliced in at position 44. -/
def C5mid : List Char :=
  C5content.take 44 ++
    annotation_block (strL "TEST_ANNOTATIONS") (strL "Test Connection") ++
    C5content.drop 44

/-- The buffer after the second entry's annotation is spliced in at position 191. -/
def C5out : List Char :=
  C5mid.take 191 ++
    annotation_block (strL "READ_ONLY_ANNOTATIONS") (strL "Search Companies") ++
    C5mid.drop 191

/-- C5: with the two entries' declarations adjacent in the buffer (any suffix
`rest` behind them, subject only to the marker being absent from the two
1000-character check windows), the first entry is annotated at position 44;
this shifts every later offset by the block length (146 = 45 + 101), yet the
second entry is still located — by re-searching the current buffer for the
name pattern, at its shifted offset 146 instead of the stale 45 — and is
annotated as well. -/
theorem C5_adjacent_entries_research (rest : List Char)
    (h1 : containsSub marker ((C5content ++ rest).take 1000) = false)
    (h2 : containsSub marker ((C5decl2 ++ rest).take 1000) = false) :
    add_annotation_to_tool (C5content ++ rest) (strL "autotask_test_connection")
      (strL "TEST_ANNOTATIONS") (strL "Test Connection") = (C5mid ++ rest, true) ∧
    searchFrom (matchAtName (strL "autotask_search_companies"))
      (C5content ++ rest) = some (45, 32) ∧
    searchFrom (matchAtName (strL "autotask_search_companies"))
      (C5mid ++ rest) = some (146, 32) ∧
    146 = 45 +
      (annotation_block (strL "TEST_ANNOTATIONS") (strL "Test Connection")).length ∧
    add_annotation_to_tool (C5mid ++ rest) (strL "autotask_search_companies")
      (strL "READ_ONLY_ANNOTATIONS") (strL "Search Companies") =
      (C5out ++ rest, true) := by
  -- the four name searches
  have hs1 : searchFrom (matchAtName (strL "autotask_test_connection"))
      (C5content ++ rest) = some (0, 31) :=
    searchFrom_concrete (fun j hj r => absurd hj (by omega))
      (fun r => matchAtName_append (by decide) r) (by decide) rest
  have href2 : ∀ j, j < 45 →
      matchAtNameRefutes (strL "autotask_search_companies") (C5content.drop j) = true := by
    decide
  have hs2 : searchFrom (matchAtName (strL "autotask_search_companies"))
      (C5content ++ rest) = some (45, 32) :=
    searchFrom_concrete (fun j hj r => matchAtNameRefutes_sound (href2 j hj) r)
      (fun r => matchAtName_append (by decide) r) (by decide) rest
  have href3 : ∀ j, j < 146 →
      matchAtNameRefutes (strL "autotask_search_companies") (C5mid.drop j) = true := by
    decide
  have hs3 : searchFrom (matchAtName (strL "autotask_search_companies"))
      (C5mid ++ rest) = some (146, 32) :=
    searchFrom_concrete (fun j hj r => matchAtNameRefutes_sound (href3 j hj) r)
      (fun r => matchAtName_append (by decide) r) (by decide) rest
  -- the two required-list searches
  have hrefr1 : ∀ j, j < 32 → matchAtRequiredRefutes (C5content.drop j) = true := by
    decide
  have hreq1 : searchFrom matchAtRequired (C5content ++ rest.take 1909) =
      some (32, 11) :=
    searchFrom_concrete (fun j hj r => matchAtRequiredRefutes_sound (hrefr1 j hj) r)
      (fun r => matchAtRequired_append (by decide) r) (by decide) _
  have hrefr2 : ∀ j, j < 33 → matchAtRequiredRefutes (C5decl2.drop j) = true := by
    decide
  have hreq2 : searchFrom matchAtRequired (C5decl2 ++ rest.take 1954) =
      some (33, 11) :=
    searchFrom_concrete (fun j hj r => matchAtRequiredRefutes_sound (hrefr2 j hj) r)
      (fun r => matchAtRequired_append (by decide) r) (by decide) _
  -- the two comma searches
  have hcom1 : searchFrom matchAtCommaBrace (C5content.drop 43 ++ rest.take 2) =
      some (0, 2) :=
    searchFrom_concrete (fun j hj r => absurd hj (by omega))
      (fun r => matchAtCommaBrace_append (by decide) r) (by decide) _
  have hcom2 : searchFrom matchAtCommaBrace (C5mid.drop 190 ++ rest.take 48) =
      some (0, 2) :=
    searchFrom_concrete (fun j hj r => absurd hj (by omega))
      (fun r => matchAtCommaBrace_append (by decide) r) (by decide) _
  -- first splice
  have hadd1 : add_annotation_to_tool (C5content ++ rest)
      (strL "autotask_test_connection") (strL "TEST_ANNOTATIONS")
      (strL "Test Connection") = (C5mid ++ rest, true) := by
    unfold add_annotation_to_tool
    rw [hs1]
    dsimp only []
    simp only [List.drop_zero]
    rw [h1]
    simp only [Bool.false_eq_true, if_false]
    rw [show (C5content ++ rest).take 2000 =
        C5content ++ rest.take 1909 from by
      rw [List.take_append_eq_append_take, List.take_all_of_le (by decide),
        show 2000 - C5content.length = 1909 from by decide]]
    rw [hreq1]
    dsimp only []
    rw [show (0 : Nat) + 32 + 11 = 43 from by norm_num]
    rw [window_eq C5content rest 43 50 (by decide) (by decide),
      show 50 - (C5content.length - 43) = 2 from by decide]
    rw [hcom1]
    dsimp only []
    rw [show (43 : Nat) + 0 + 1 = 44 from by norm_num]
    rw [List.take_append_eq_append_take,
      show 44 - C5content.length = 0 from by decide, List.take_zero,
      List.append_nil, List.drop_append_eq_append_drop,
      show 44 - C5content.length = 0 from by decide, List.drop_zero]
    simp [C5mid, List.append_assoc]
  -- second splice, on the shifted buffer
  have hadd2 : add_annotation_to_tool (C5mid ++ rest)
      (strL "autotask_search_companies") (strL "READ_ONLY_ANNOTATIONS")
      (strL "Search Companies") = (C5out ++ rest, true) := by
    unfold add_annotation_to_tool
    rw [hs3]
    dsimp only []
    rw [List.drop_append_eq_append_drop,
      show 146 - C5mid.length = 0 from by decide, List.drop_zero,
      show C5mid.drop 146 = C5decl2 from by decide]
    rw [h2]
    simp only [Bool.false_eq_true, if_false]
    rw [show (C5decl2 ++ rest).take 2000 = C5decl2 ++ rest.take 1954 from by
      rw [List.take_append_eq_append_take, List.take_all_of_le (by decide),
        show 2000 - C5decl2.length = 1954 from by decide]]
    rw [hreq2]
    dsimp only []
    rw [show (146 : Nat) + 33 + 11 = 190 from by norm_num]
    rw [window_eq C5mid rest 190 50 (by decide) (by decide),
      show 50 - (C5mid.length - 190) = 48 from by decide]
    rw [hcom2]
    dsimp only []
    rw [show (190 : Nat) + 0 + 1 = 191 from by norm_num]
    rw [List.take_append_eq_append_take,
      show 191 - C5mid.length = 0 from by decide, List.take_zero,
      List.append_nil, List.drop_append_eq_append_drop,
      show 191 - C5mid.length = 0 from by decide, List.drop_zero]
    simp [C5out, List.append_assoc]
  exact ⟨hadd1, hs2, hs3, by decide, hadd2⟩

/-- Witness for C5: the empty suffix. -/
theorem C5_adjacent_entries_research_witness :
    add_annotation_to_tool (C5content ++ []) (strL "autotask_test_connection")
      (strL "TEST_ANNOTATIONS") (strL "Test Connection") = (C5mid ++ [], true) ∧
    searchFrom (matchAtName (strL "autotask_search_companies"))
      (C5content ++ []) = some (45, 32) ∧
    searchFrom (matchAtName (strL "autotask_search_companies"))
      (C5mid ++ []) = some (146, 32) ∧
    146 = 45 +
      (annotation_block (strL "TEST_ANNOTATIONS") (strL "Test Connection")).length ∧
    add_annotation_to_tool (C5mid ++ []) (strL "autotask_search_companies")
      (strL "READ_ONLY_ANNOTATIONS") (strL "Search Companies") =
      (C5out ++ [], true) :=
  C5_adjacent_entries_research [] (by decide) (by decide)
